import Mathlib

/-!
# Baliza driving demo: simulation loop and bicycle-model dynamics

A shallow embedding of the simulation core of `projeto.cpp`
(`updatePhysics`, `timerFunc`, the four input handlers and the reset
command), followed by theorems about it.

Modelling conventions.

* `float` arithmetic is modelled exactly, over an arbitrary linearly
  ordered field `α` (instantiated at `ℚ` for evaluation and at `ℝ` when
  the true trigonometric functions are needed).  Rounding of the operations
  is not modelled.  The constant `PI` is taken at its binary32 value, because
  the side of `π` it lies on is visible in the results; the other decimal
  literals are taken as written.
* `sinf`, `cosf` and `tanf` come from the C library, not from the
  repository; they are a parameter `Libm α` of the dynamics.
* The global variables `cam`, `car`, the ten key flags and the function-local
  `static int last` of `timerFunc` are gathered in one record `World`,
  passed explicitly.
* `int` is modelled by `Int`; the one `int` subtraction of the program wraps
  to 32 bits explicitly.
-/

set_option linter.unusedSectionVars false

namespace Projeto

/-! ## Data model -/

/-- Source `struct Camera`: position and translation speed. -/
structure Camera (α : Type) where
  x : α
  y : α
  z : α
  speed : α

/-- Source `struct Car`: position, heading (degrees), signed speed and
front-wheel steer angle (degrees). -/
structure Car (α : Type) where
  x : α
  y : α
  z : α
  heading : α
  speed : α
  wheelAngle : α

/-- The ten global key flags of the source, under their source names. -/
structure Keys where
  camForward : Bool
  camBack : Bool
  camLeft : Bool
  camRight : Bool
  camUp : Bool
  camDown : Bool
  keyUp : Bool
  keyDown : Bool
  keyLeft : Bool
  keyRight : Bool

/-- The three C library functions `updatePhysics` calls. -/
structure Libm (α : Type) where
  sinf : α → α
  cosf : α → α
  tanf : α → α

/-- The whole mutable state of the program that the simulation core reads
or writes.  `last` is the `static int last` of `timerFunc`; it is `none`
until the first timer callback initialises it. -/
structure World (α : Type) where
  cam : Camera α
  car : Car α
  keys : Keys
  last : Option Int

section Defs

variable {α : Type} [LinearOrderedField α]

/-! ## Constants -/

/-- Source `const float CAR_ACCEL = 6.0f`. -/
def CAR_ACCEL (α : Type) [LinearOrderedField α] : α := 6
/-- Source `const float BRAKE = 8.0f` (never read). -/
def BRAKE (α : Type) [LinearOrderedField α] : α := 8
/-- Source `const float FRICTION = 3.0f`. -/
def FRICTION (α : Type) [LinearOrderedField α] : α := 3
/-- Source `const float MAX_SPEED = 8.0f`. -/
def MAX_SPEED (α : Type) [LinearOrderedField α] : α := 8
/-- Source `const float MAX_REVERSE = -3.0f`. -/
def MAX_REVERSE (α : Type) [LinearOrderedField α] : α := -3
/-- Source `const float MAX_WHEEL_DEG = 30.0f`. -/
def MAX_WHEEL_DEG (α : Type) [LinearOrderedField α] : α := 30
/-- Source `const float WHEEL_SPEED_DEG = 90.0f`. -/
def WHEEL_SPEED_DEG (α : Type) [LinearOrderedField α] : α := 90
/-- Source `const float WHEEL_BASE = 1.0f`. -/
def WHEEL_BASE (α : Type) [LinearOrderedField α] : α := 1
/-- Source `const float PI = 3.14159265f`: the value the constant has in the
program, the binary32 number nearest the literal,
`13176795 / 2 ^ 22 = 3.1415927410125732...`, which lies slightly above `π`
(the decimal literal itself lies below `π`; the side decides the sign of the
sine of the heading 180). -/
def PI (α : Type) [LinearOrderedField α] : α := 13176795 / 4194304

/-- Freeglut header constant `GLUT_KEY_LEFT` (`0x0064`). -/
def GLUT_KEY_LEFT : Int := 100
/-- Freeglut header constant `GLUT_KEY_UP` (`0x0065`). -/
def GLUT_KEY_UP : Int := 101
/-- Freeglut header constant `GLUT_KEY_RIGHT` (`0x0066`). -/
def GLUT_KEY_RIGHT : Int := 102
/-- Freeglut header constant `GLUT_KEY_DOWN` (`0x0067`). -/
def GLUT_KEY_DOWN : Int := 103

/-! ## Initial state -/

/-- The default member initialisers of `struct Camera`. -/
def Camera.init (α : Type) [LinearOrderedField α] : Camera α :=
  { x := 0, y := 32 / 10, z := 10, speed := 6 }

/-- The default member initialisers of `struct Car`. -/
def Car.init (α : Type) [LinearOrderedField α] : Car α :=
  { x := 0, y := 25 / 100, z := 6, heading := 180, speed := 0, wheelAngle := 0 }

/-- All ten flags start `false`. -/
def Keys.init : Keys :=
  { camForward := false, camBack := false, camLeft := false, camRight := false,
    camUp := false, camDown := false,
    keyUp := false, keyDown := false, keyLeft := false, keyRight := false }

/-- The state at process start. -/
def World.init (α : Type) [LinearOrderedField α] : World α :=
  { cam := Camera.init α, car := Car.init α, keys := Keys.init, last := none }

/-! ## `updatePhysics` -/

/-- Camera block of `updatePhysics` (source lines 336-344).  The floor
`0.5` is applied only inside the `camDown` branch, as in the source. -/
def cameraUpdate (k : Keys) (dt : α) (c : Camera α) : Camera α :=
  let cs := c.speed * dt
  let z1 := if k.camForward then c.z - cs else c.z
  let z2 := if k.camBack then z1 + cs else z1
  let x1 := if k.camLeft then c.x - cs else c.x
  let x2 := if k.camRight then x1 + cs else x1
  let y1 := if k.camUp then c.y + cs else c.y
  let y2 := if k.camDown then (if y1 - cs < 5 / 10 then 5 / 10 else y1 - cs) else y1
  { x := x2, y := y2, z := z2, speed := c.speed }

/-- Step 1 of the car block (source lines 349-359): steering input or
auto-centring, then the clamp to `[-MAX_WHEEL_DEG, MAX_WHEEL_DEG]`. -/
def steerUpdate (k : Keys) (dt : α) (wheelAngle : α) : α :=
  let a1 :=
    if k.keyLeft then wheelAngle + WHEEL_SPEED_DEG α * dt
    else if k.keyRight then wheelAngle - WHEEL_SPEED_DEG α * dt
    else if wheelAngle > 1 then wheelAngle - 60 * dt
    else if wheelAngle < -1 then wheelAngle + 60 * dt
    else 0
  let a2 := if a1 > MAX_WHEEL_DEG α then MAX_WHEEL_DEG α else a1
  if a2 < -MAX_WHEEL_DEG α then -MAX_WHEEL_DEG α else a2

/-- Step 2 of the car block (source lines 362-371): throttle, brake/reverse
or friction, then the clamp to `[MAX_REVERSE, MAX_SPEED]`. -/
def speedUpdate (k : Keys) (dt : α) (speed : α) : α :=
  let v1 :=
    if k.keyUp then speed + CAR_ACCEL α * dt
    else if k.keyDown then speed - CAR_ACCEL α * dt
    else if speed > 0 then
      (if speed - FRICTION α * dt < 0 then 0 else speed - FRICTION α * dt)
    else if speed < 0 then
      (if speed + FRICTION α * dt > 0 then 0 else speed + FRICTION α * dt)
    else speed
  let v2 := if v1 > MAX_SPEED α then MAX_SPEED α else v1
  if v2 < MAX_REVERSE α then MAX_REVERSE α else v2

/-- Source `float steerRad = car.wheelAngle * (PI/180.0f)`. -/
def steerRad (wheelAngle : α) : α := wheelAngle * (PI α / 180)

/-- Source `float R = WHEEL_BASE / tanf(steerRad)`. -/
def turnRadius (m : Libm α) (s : α) : α := WHEEL_BASE α / m.tanf s

/-- Source `float angVel = (car.speed / R) * (180.0f/PI)`. -/
def angVel (m : Libm α) (s speed : α) : α := (speed / turnRadius m s) * (180 / PI α)

/-- Step 3 of the car block (source lines 374-381): the heading moves only
when `fabsf(steerRad) > 1e-4f`.  The arguments are the wheel angle and the
speed already updated by steps 1 and 2. -/
def headingUpdate (m : Libm α) (dt : α) (wheelAngle speed heading : α) : α :=
  if |steerRad wheelAngle| > 1 / 10000 then heading + angVel m (steerRad wheelAngle) speed * dt
  else heading

/-- A two-sided hard clip written as the source writes it: first the upper
test, then the lower one. -/
def clip (lo hi v : α) : α :=
  let v1 := if v > hi then hi else v
  if v1 < lo then lo else v1

/-- The car block of `updatePhysics` (source lines 349-391). -/
def carUpdate (m : Libm α) (k : Keys) (dt : α) (c : Car α) : Car α :=
  let wheelAngle := steerUpdate k dt c.wheelAngle
  let speed := speedUpdate k dt c.speed
  let heading := headingUpdate m dt wheelAngle speed c.heading
  let hr := heading * (PI α / 180)
  let x := c.x + m.sinf hr * speed * dt
  let z := c.z + m.cosf hr * speed * dt
  { x := clip (-10) 10 x, y := c.y, z := clip (-24) 16 z,
    heading := heading, speed := speed, wheelAngle := wheelAngle }

/-- Source `void updatePhysics(float dt)`. -/
def updatePhysics (m : Libm α) (dt : α) (w : World α) : World α :=
  { cam := cameraUpdate w.keys dt w.cam,
    car := carUpdate m w.keys dt w.car,
    keys := w.keys,
    last := w.last }

/-! ## Clock -/

/-- Twos-complement wrap of an integer to the 32-bit `int` range. -/
def wrapInt32 (z : Int) : Int := (z + 2147483648) % 4294967296 - 2147483648

/-- The delta-time computation of `timerFunc` (source lines 483-484):
`(now - last) / 1000.0f`, replaced by `0.016f` when it is not in
`(0, 0.5]`. -/
def timerDt (α : Type) [LinearOrderedField α] (now last : Int) : α :=
  let dt : α := ((wrapInt32 (now - last) : Int) : α) / 1000
  if dt ≤ 0 ∨ dt > 5 / 10 then 16 / 1000 else dt

/-- Source `void timerFunc(int value)`, `now` being what
`glutGet(GLUT_ELAPSED_TIME)` returned.  On the first call the static
`last` is initialised with `now`.  Redisplay and re-arming the timer do not
touch the simulation state. -/
def timerFunc (m : Libm α) (now : Int) (w : World α) : World α :=
  let last := w.last.getD now
  let dt := timerDt α now last
  updatePhysics m dt { w with last := some now }

/-! ## Input handlers -/

/-- Source `void keyboardDown(unsigned char key, int x, int y)`; the unused
mouse coordinates are left out.  `none` is `exit(0)`. -/
def keyboardDown (key : Char) (w : World α) : Option (World α) :=
  if key = 'w' then some { w with keys := { w.keys with camForward := true } }
  else if key = 's' then some { w with keys := { w.keys with camBack := true } }
  else if key = 'a' then some { w with keys := { w.keys with camLeft := true } }
  else if key = 'd' then some { w with keys := { w.keys with camRight := true } }
  else if key = 'q' then some { w with keys := { w.keys with camUp := true } }
  else if key = 'e' then some { w with keys := { w.keys with camDown := true } }
  else if key = 'r' then
    some { w with
      car := { w.car with x := 0, z := 6, heading := 180, speed := 0, wheelAngle := 0 },
      cam := { w.cam with x := 0, y := 32 / 10, z := 10 } }
  else if key = Char.ofNat 27 then none
  else some w

/-- Source `void keyboardUp(unsigned char key, int x, int y)`. -/
def keyboardUp (key : Char) (w : World α) : World α :=
  if key = 'w' then { w with keys := { w.keys with camForward := false } }
  else if key = 's' then { w with keys := { w.keys with camBack := false } }
  else if key = 'a' then { w with keys := { w.keys with camLeft := false } }
  else if key = 'd' then { w with keys := { w.keys with camRight := false } }
  else if key = 'q' then { w with keys := { w.keys with camUp := false } }
  else if key = 'e' then { w with keys := { w.keys with camDown := false } }
  else w

/-- Source `void specialDown(int key, int x, int y)`. -/
def specialDown (key : Int) (w : World α) : World α :=
  if key = GLUT_KEY_UP then { w with keys := { w.keys with keyUp := true } }
  else if key = GLUT_KEY_DOWN then { w with keys := { w.keys with keyDown := true } }
  else if key = GLUT_KEY_LEFT then { w with keys := { w.keys with keyLeft := true } }
  else if key = GLUT_KEY_RIGHT then { w with keys := { w.keys with keyRight := true } }
  else w

/-- Source `void specialUp(int key, int x, int y)`. -/
def specialUp (key : Int) (w : World α) : World α :=
  if key = GLUT_KEY_UP then { w with keys := { w.keys with keyUp := false } }
  else if key = GLUT_KEY_DOWN then { w with keys := { w.keys with keyDown := false } }
  else if key = GLUT_KEY_LEFT then { w with keys := { w.keys with keyLeft := false } }
  else if key = GLUT_KEY_RIGHT then { w with keys := { w.keys with keyRight := false } }
  else w

/-! ## Event loop -/

/-- The callbacks the host event loop can deliver to the simulation core. -/
inductive Event where
  | keyboardDown (key : Char)
  | keyboardUp (key : Char)
  | specialDown (key : Int)
  | specialUp (key : Int)
  | timer (now : Int)

/-- Deliver one event; `none` when the process has exited. -/
def step (m : Libm α) (e : Event) (w : World α) : Option (World α) :=
  match e with
  | Event.keyboardDown key => keyboardDown key w
  | Event.keyboardUp key => some (keyboardUp key w)
  | Event.specialDown key => some (specialDown key w)
  | Event.specialUp key => some (specialUp key w)
  | Event.timer now => some (timerFunc m now w)

/-- Deliver a list of events in order (single-threaded: callbacks never
overlap); `none` as soon as the process has exited. -/
def run (m : Libm α) : List Event → World α → Option (World α)
  | [], w => some w
  | e :: es, w =>
    match step m e w with
    | none => none
    | some w1 => run m es w1

/-- The state after the first `n` ticks of `updatePhysics`, tick `i`
(counted from 0) being run with delta-time `dts i`. -/
def ticks (m : Libm α) (dts : Nat → α) : Nat → World α → World α
  | 0, w => w
  | n + 1, w => updatePhysics m (dts n) (ticks m dts n w)

/-- The default state with only the accelerator (`keyUp`) held. -/
def accelWorld (α : Type) [LinearOrderedField α] : World α :=
  { World.init α with keys := { Keys.init with keyUp := true } }

/-- The default state with the speed set to `-2` and the wheel angle to
`+30`, no key held (the reverse-steering scenario). -/
def reverseWorld (α : Type) [LinearOrderedField α] : World α :=
  { World.init α with car := { Car.init α with speed := -2, wheelAngle := 30 } }

end Defs

/-! ## Invariants after a tick -/

section Invariants

variable {α : Type} [LinearOrderedField α]

theorem clip_bounds (lo hi v : α) (h : lo ≤ hi) : lo ≤ clip lo hi v ∧ clip lo hi v ≤ hi := by
  unfold clip
  dsimp only
  split_ifs <;> constructor <;> linarith

theorem steerUpdate_bounds (k : Keys) (dt a : α) :
    -MAX_WHEEL_DEG α ≤ steerUpdate k dt a ∧ steerUpdate k dt a ≤ MAX_WHEEL_DEG α := by
  unfold steerUpdate MAX_WHEEL_DEG
  dsimp only
  split_ifs <;> constructor <;> linarith

theorem speedUpdate_bounds (k : Keys) (dt v : α) :
    MAX_REVERSE α ≤ speedUpdate k dt v ∧ speedUpdate k dt v ≤ MAX_SPEED α := by
  unfold speedUpdate MAX_REVERSE MAX_SPEED
  dsimp only
  split_ifs <;> constructor <;> linarith

/-- C1: after one `updatePhysics` tick, from any state, with any flags, any
library functions and any `dt`, the car satisfies
`MAX_REVERSE ≤ speed ≤ MAX_SPEED` (that is `-3 ≤ speed ≤ 8`),
`|wheelAngle| ≤ 30`, `x ∈ [-10, 10]` and `z ∈ [-24, 16]`. -/
theorem updatePhysics_car_invariants (m : Libm α) (dt : α) (w : World α) :
    MAX_REVERSE α ≤ (updatePhysics m dt w).car.speed ∧
    (updatePhysics m dt w).car.speed ≤ MAX_SPEED α ∧
    -3 ≤ (updatePhysics m dt w).car.speed ∧
    (updatePhysics m dt w).car.speed ≤ 8 ∧
    |(updatePhysics m dt w).car.wheelAngle| ≤ 30 ∧
    -10 ≤ (updatePhysics m dt w).car.x ∧ (updatePhysics m dt w).car.x ≤ 10 ∧
    -24 ≤ (updatePhysics m dt w).car.z ∧ (updatePhysics m dt w).car.z ≤ 16 := by
  have hs := speedUpdate_bounds w.keys dt w.car.speed
  have ha := steerUpdate_bounds w.keys dt w.car.wheelAngle
  have hx := fun v : α => clip_bounds (-10) 10 v (by norm_num)
  have hz := fun v : α => clip_bounds (-24) 16 v (by norm_num)
  simp only [MAX_REVERSE, MAX_SPEED, MAX_WHEEL_DEG] at hs ha ⊢
  simp only [updatePhysics, carUpdate]
  refine ⟨hs.1, hs.2, hs.1, hs.2, abs_le.mpr ⟨ha.1, ha.2⟩, (hx _).1, (hx _).2, (hz _).1, (hz _).2⟩


/-! ## Ticks leave the flags alone -/

theorem updatePhysics_keys (m : Libm α) (dt : α) (w : World α) :
    (updatePhysics m dt w).keys = w.keys := rfl

theorem ticks_keys (m : Libm α) (dts : Nat → α) (n : Nat) (w : World α) :
    (ticks m dts n w).keys = w.keys := by
  induction n with
  | zero => rfl
  | succ n ih => simpa [ticks, updatePhysics_keys] using ih

theorem ticks_speed (m : Libm α) (dts : Nat → α) (n : Nat) (w : World α) :
    (ticks m dts (n + 1) w).car.speed
      = speedUpdate w.keys (dts n) (ticks m dts n w).car.speed := by
  show speedUpdate (ticks m dts n w).keys (dts n) (ticks m dts n w).car.speed = _
  rw [ticks_keys]

theorem ticks_wheelAngle (m : Libm α) (dts : Nat → α) (n : Nat) (w : World α) :
    (ticks m dts (n + 1) w).car.wheelAngle
      = steerUpdate w.keys (dts n) (ticks m dts n w).car.wheelAngle := by
  show steerUpdate (ticks m dts n w).keys (dts n) (ticks m dts n w).car.wheelAngle = _
  rw [ticks_keys]

/-- One friction step (no throttle, no brake): the speed moves toward 0 by
at most its own size and by at least `3 * δ` whenever `δ ≤ dt`. -/
theorem friction_step (k : Keys) (hup : k.keyUp = false) (hdown : k.keyDown = false)
    (δ dt v : α) (hδ : 0 ≤ δ) (hdt : δ ≤ dt) :
    (0 ≤ v → 0 ≤ speedUpdate k dt v ∧ speedUpdate k dt v ≤ v ∧
      speedUpdate k dt v ≤ max 0 (v - 3 * δ)) ∧
    (v ≤ 0 → v ≤ speedUpdate k dt v ∧ speedUpdate k dt v ≤ 0 ∧
      -speedUpdate k dt v ≤ max 0 (-v - 3 * δ)) := by
  unfold speedUpdate CAR_ACCEL FRICTION MAX_SPEED MAX_REVERSE
  simp only [hup, hdown, Bool.false_eq_true, if_false]
  constructor
  · intro hv
    split_ifs <;> refine ⟨by linarith, by linarith, ?_⟩ <;>
      first
        | exact le_max_of_le_left (by linarith)
        | exact le_max_of_le_right (by linarith)
  · intro hv
    split_ifs <;> refine ⟨by linarith, by linarith, ?_⟩ <;>
      first
        | exact le_max_of_le_left (by linarith)
        | exact le_max_of_le_right (by linarith)

/-! ## Friction decay -/

theorem friction_abs_step (k : Keys) (hup : k.keyUp = false) (hdown : k.keyDown = false)
    (δ dt v : α) (hδ : 0 ≤ δ) (hdt : δ ≤ dt) :
    |speedUpdate k dt v| ≤ |v| ∧ |speedUpdate k dt v| ≤ max 0 (|v| - 3 * δ) := by
  have h := friction_step k hup hdown δ dt v hδ hdt
  rcases le_total 0 v with hv | hv
  · obtain ⟨h1, h2, h3⟩ := h.1 hv
    rw [abs_of_nonneg h1, abs_of_nonneg hv]
    exact ⟨h2, h3⟩
  · obtain ⟨h1, h2, h3⟩ := h.2 hv
    rw [abs_of_nonpos h2, abs_of_nonpos hv]
    exact ⟨by linarith, h3⟩

theorem friction_sign (m : Libm α) (dts : Nat → α) (w : World α)
    (hup : w.keys.keyUp = false) (hdown : w.keys.keyDown = false)
    (hdt : ∀ n, 0 ≤ dts n) (n : Nat) :
    (0 ≤ w.car.speed → 0 ≤ (ticks m dts n w).car.speed) ∧
    (w.car.speed ≤ 0 → (ticks m dts n w).car.speed ≤ 0) := by
  induction n with
  | zero => exact ⟨fun h => h, fun h => h⟩
  | succ n ih =>
    rw [ticks_speed]
    have h := friction_step w.keys hup hdown 0 (dts n) (ticks m dts n w).car.speed
      le_rfl (hdt n)
    exact ⟨fun h0 => (h.1 (ih.1 h0)).1, fun h0 => (h.2 (ih.2 h0)).2.1⟩

theorem speedUpdate_friction_pos (k : Keys) (hup : k.keyUp = false)
    (hdown : k.keyDown = false) (dt v : α) (hv : 0 < v) (hv8 : v ≤ 8) (hdt : 0 ≤ dt) :
    speedUpdate k dt v = if v - 3 * dt < 0 then 0 else v - 3 * dt := by
  unfold speedUpdate CAR_ACCEL FRICTION MAX_SPEED MAX_REVERSE
  simp only [hup, hdown, Bool.false_eq_true, if_false]
  split_ifs <;> linarith

theorem friction_abs_bound (m : Libm α) (dts : Nat → α) (w : World α)
    (hup : w.keys.keyUp = false) (hdown : w.keys.keyDown = false)
    (hdt : ∀ n, 0 ≤ dts n) (n : Nat) :
    |(ticks m dts n w).car.speed|
      ≤ max 0 (|w.car.speed| - 3 * (Finset.range n).sum dts) := by
  induction n with
  | zero => simp [ticks]
  | succ n ih =>
    rw [ticks_speed, Finset.sum_range_succ]
    have h := (friction_abs_step w.keys hup hdown (dts n) (dts n)
      (ticks m dts n w).car.speed (hdt n) le_rfl).2
    refine h.trans ?_
    rcases le_max_iff.mp ih with h0 | h1
    · have : |(ticks m dts n w).car.speed| - 3 * dts n ≤ 0 := by linarith [hdt n]
      exact max_le (le_max_left _ _) (this.trans (le_max_left _ _))
    · refine max_le (le_max_left _ _) (le_max_of_le_right ?_)
      linarith

/-- Under a Zeno schedule of delta-times, tick `n` lasting `1 / 2 ^ (n + 1)`,
friction takes the speed from 5 to `2 + 3 / 2 ^ n` after `n` ticks. -/
theorem zeno_closed_form (m : Libm α) (w : World α)
    (hup : w.keys.keyUp = false) (hdown : w.keys.keyDown = false)
    (h5 : w.car.speed = 5) (n : Nat) :
    (ticks m (fun i => 1 / 2 ^ (i + 1)) n w).car.speed = 2 + 3 / 2 ^ n := by
  induction n with
  | zero => rw [show (ticks m (fun i => (1 : α) / 2 ^ (i + 1)) 0 w) = w from rfl, h5]; norm_num
  | succ n ih =>
    rw [ticks_speed, ih]
    have hp : (0 : α) < 1 / 2 ^ n := by positivity
    have hp1 : (1 : α) / 2 ^ n ≤ 1 := by
      rw [div_le_one (by positivity)]
      exact one_le_pow₀ (by norm_num)
    have e : (1 : α) / 2 ^ (n + 1) = (1 / 2 ^ n) / 2 := by rw [pow_succ]; field_simp
    have e3 : (3 : α) / 2 ^ n = 3 * (1 / 2 ^ n) := by ring
    have e3s : (3 : α) / 2 ^ (n + 1) = 3 * ((1 / 2 ^ n) / 2) := by rw [← e]; ring
    rw [speedUpdate_friction_pos w.keys hup hdown _ _ (by rw [e3]; linarith)
      (by rw [e3]; linarith) (by positivity), e3s, e3, e, if_neg (by linarith)]
    ring

theorem friction_closed_form (m : Libm α) (w : World α)
    (hup : w.keys.keyUp = false) (hdown : w.keys.keyDown = false)
    (h5 : w.car.speed = 5) (n : Nat) (hn : n ≤ 16) :
    (ticks m (fun _ => 1 / 10) n w).car.speed = 5 - 3 * (n : α) / 10 := by
  induction n with
  | zero => simp [ticks, h5]
  | succ n ih =>
    rw [ticks_speed, ih (by omega)]
    have hn1 : (n : α) ≤ 15 := by exact_mod_cast (by omega : n ≤ 15)
    have hn0 : (0 : α) ≤ n := Nat.cast_nonneg n
    rw [speedUpdate_friction_pos w.keys hup hdown _ _ (by linarith) (by linarith) (by norm_num),
      if_neg (by linarith)]
    push_cast
    ring

/-- C2 (as amended): with `keyUp` and `keyDown` both false, for every speed
in `[-3, 8]` and every sequence of ticks with `dt > 0`, `|speed|` never
increases from one tick to the next and the speed never changes sign (no
overshoot past 0); when every `dt` is one the clock can produce
(`0.001 ≤ dt ≤ 0.5`, see `timerDt_ge_millisecond`) the speed reaches exactly
0 after finitely many ticks and then stays 0.  In particular from
`speed = 5` with `dt = 0.1` the speed is still positive after 16 ticks and
exactly 0 after 17. -/
theorem friction_decay (m : Libm α) (dts : Nat → α) (w : World α)
    (hup : w.keys.keyUp = false) (hdown : w.keys.keyDown = false)
    (hlo : -3 ≤ w.car.speed) (hhi : w.car.speed ≤ 8)
    (hpos : ∀ n, 0 < dts n) :
    (∀ n, |(ticks m dts (n + 1) w).car.speed| ≤ |(ticks m dts n w).car.speed|) ∧
    (∀ n, (0 ≤ w.car.speed → 0 ≤ (ticks m dts n w).car.speed) ∧
          (w.car.speed ≤ 0 → (ticks m dts n w).car.speed ≤ 0)) ∧
    ((∀ n, 1 / 1000 ≤ dts n ∧ dts n ≤ 5 / 10) →
      ∃ N, ∀ n, N ≤ n → (ticks m dts n w).car.speed = 0) ∧
    (w.car.speed = 5 → (∀ n, dts n = 1 / 10) →
      0 < (ticks m dts 16 w).car.speed ∧ (ticks m dts 17 w).car.speed = 0) := by
  refine ⟨?_, ?_, ?_, ?_⟩
  · intro n
    rw [ticks_speed]
    exact (friction_abs_step w.keys hup hdown 0 (dts n) _ le_rfl (hpos n).le).1
  · exact friction_sign m dts w hup hdown (fun n => (hpos n).le)
  · intro hdt
    refine ⟨2667, fun n hn => ?_⟩
    have hb := friction_abs_bound m dts w hup hdown (fun i => (hpos i).le) n
    have habs : |w.car.speed| ≤ 8 := abs_le.mpr ⟨by linarith, hhi⟩
    have hNn : (2667 : α) ≤ n := by exact_mod_cast hn
    have hsum : (n : α) * (1 / 1000) ≤ (Finset.range n).sum dts := by
      have := Finset.card_nsmul_le_sum (Finset.range n) dts (1 / 1000)
        (fun i _ => (hdt i).1)
      simpa [nsmul_eq_mul] using this
    rw [max_eq_left (by linarith)] at hb
    exact abs_eq_zero.mp (le_antisymm hb (abs_nonneg _))
  · intro h5 hconst
    have hd : dts = fun _ => (1 : α) / 10 := funext hconst
    subst hd
    have h16 := friction_closed_form m w hup hdown h5 16 le_rfl
    constructor
    · rw [h16]; norm_num
    · rw [ticks_speed, h16,
        speedUpdate_friction_pos w.keys hup hdown _ _ (by norm_num) (by norm_num) (by norm_num),
        if_pos (by norm_num)]

/-- Witness for C2: the friction scenario from `speed = 5` at `dt = 0.1`. -/
theorem friction_decay_witness :
    (∃ N, ∀ n, N ≤ n →
      (ticks (⟨fun _ => 0, fun _ => -1, fun x => x⟩ : Libm ℚ) (fun _ => 1 / 10) n
        { World.init ℚ with car := { Car.init ℚ with speed := 5 } }).car.speed = 0) ∧
    0 < (ticks (⟨fun _ => 0, fun _ => -1, fun x => x⟩ : Libm ℚ) (fun _ => 1 / 10) 16
        { World.init ℚ with car := { Car.init ℚ with speed := 5 } }).car.speed ∧
    (ticks (⟨fun _ => 0, fun _ => -1, fun x => x⟩ : Libm ℚ) (fun _ => 1 / 10) 17
        { World.init ℚ with car := { Car.init ℚ with speed := 5 } }).car.speed = 0 :=
  have h := friction_decay (⟨fun _ => 0, fun _ => -1, fun x => x⟩ : Libm ℚ)
    (fun _ => 1 / 10) { World.init ℚ with car := { Car.init ℚ with speed := 5 } }
    rfl rfl (by show (-3 : ℚ) ≤ 5; norm_num) (by show (5 : ℚ) ≤ 8; norm_num)
    (fun _ => by norm_num)
  ⟨h.2.2.1 (fun _ => ⟨by norm_num, by norm_num⟩), h.2.2.2 rfl (fun _ => rfl)⟩

/-- C2 (counterexample): from `speed = 5` (inside `[-3, 8]`) with no car
input, the ticks with `dt = 1/2, 1/4, 1/8, ...` (all positive) leave the
speed at `2 + 3 / 2 ^ n` after `n` ticks: it is never 0, however many ticks
are run. -/
theorem friction_zeno_never_stops :
    (∀ n : Nat, (0 : ℚ) < 1 / 2 ^ (n + 1)) ∧
    ∀ n : Nat,
      (ticks (⟨fun _ => 0, fun _ => -1, fun x => x⟩ : Libm ℚ) (fun i => 1 / 2 ^ (i + 1)) n
        { World.init ℚ with car := { Car.init ℚ with speed := 5 } }).car.speed ≠ 0 := by
  refine ⟨fun n => by positivity, fun n => ?_⟩
  rw [zeno_closed_form _ _ rfl rfl rfl]
  positivity

end Invariants

/-! ## Steering auto-centring -/

section Steering
variable {α : Type} [LinearOrderedField α]

theorem steerUpdate_recenter (k : Keys) (hl : k.keyLeft = false) (hr : k.keyRight = false)
    (dt a : α) :
    steerUpdate k dt a =
      clip (-30) 30 (if a > 1 then a - 60 * dt else if a < -1 then a + 60 * dt else 0) := by
  unfold steerUpdate clip MAX_WHEEL_DEG
  simp only [hl, hr, Bool.false_eq_true, if_false]

theorem timerDt_of_small (now last : Int) (h0 : 0 < now - last) (h1 : now - last ≤ 500) :
    timerDt α now last = ((now - last : Int) : α) / 1000 := by
  have hw : wrapInt32 (now - last) = now - last := by
    unfold wrapInt32
    omega
  have hpos : (0 : α) < ((now - last : Int) : α) := by exact_mod_cast h0
  have hle : ((now - last : Int) : α) ≤ 500 := by exact_mod_cast h1
  unfold timerDt
  simp only [hw]
  rw [if_neg]
  rintro (h | h)
  · have : (0 : α) < ((now - last : Int) : α) / 1000 := by positivity
    linarith
  · rw [gt_iff_lt, lt_div_iff₀ (by norm_num)] at h
    linarith

/-- C3 (the code at the failing input): the wheel angle `1.44` is reached
from the start by one 16 ms tick with the left arrow held; with the arrow
released and ticks of `dt = 0.05` (what the clock yields for 50 ms
frames), the auto-centring step of 3 degrees jumps over the dead band
`[-1, 1]`: the angle is `-1.56` after every odd number of ticks and `1.44`
after every even number, so `|wheelAngle|` grows on the first tick and the
angle is never 0. -/
theorem steer_recenter_overshoots (m : Libm α) :
    ((run m [Event.timer 0, Event.specialDown GLUT_KEY_LEFT, Event.timer 16,
        Event.specialUp GLUT_KEY_LEFT] (World.init α)).map
      (fun w => (w.car.wheelAngle, w.keys.keyLeft, w.keys.keyRight))
        = some (36 / 25, false, false)) ∧
    timerDt α 66 16 = 1 / 20 ∧
    (∀ n : Nat,
      (ticks m (fun _ => 1 / 20) (2 * n)
        { World.init α with car := { Car.init α with wheelAngle := 36 / 25 } }).car.wheelAngle
          = 36 / 25 ∧
      (ticks m (fun _ => 1 / 20) (2 * n + 1)
        { World.init α with car := { Car.init α with wheelAngle := 36 / 25 } }).car.wheelAngle
          = -(39 / 25)) ∧
    |(36 / 25 : α)| < |(-(39 / 25) : α)| := by
  have hstep1 : ∀ k : Keys, k.keyLeft = false → k.keyRight = false →
      steerUpdate k (1 / 20 : α) (36 / 25) = -(39 / 25) := by
    intro k hl hr
    rw [steerUpdate_recenter k hl hr, if_pos (by norm_num)]
    unfold clip
    norm_num
  have hstep2 : ∀ k : Keys, k.keyLeft = false → k.keyRight = false →
      steerUpdate k (1 / 20 : α) (-(39 / 25)) = 36 / 25 := by
    intro k hl hr
    rw [steerUpdate_recenter k hl hr, if_neg (by norm_num), if_pos (by norm_num)]
    unfold clip
    norm_num
  refine ⟨?_, ?_, ?_, ?_⟩
  · have h16 : timerDt α 16 0 = 16 / 1000 := by
      rw [timerDt_of_small 16 0 (by norm_num) (by norm_num)]; norm_num
    simp only [run, step, timerFunc, specialDown, specialUp, updatePhysics, carUpdate,
      World.init, Car.init, Keys.init, Option.getD, Option.map, h16]
    simp only [GLUT_KEY_LEFT, GLUT_KEY_UP, GLUT_KEY_DOWN, GLUT_KEY_RIGHT]
    norm_num [steerUpdate, WHEEL_SPEED_DEG, MAX_WHEEL_DEG, h16]
  · rw [timerDt_of_small 66 16 (by norm_num) (by norm_num)]; norm_num
  · intro n
    induction n with
    | zero =>
      refine ⟨rfl, ?_⟩
      rw [ticks_wheelAngle]
      exact hstep1 _ rfl rfl
    | succ n ih =>
      have e : 2 * (n + 1) = (2 * n + 1) + 1 := by ring
      have h2 : (ticks m (fun _ => (1 : α) / 20) (2 * (n + 1))
          { World.init α with car := { Car.init α with wheelAngle := 36 / 25 } }).car.wheelAngle
            = 36 / 25 := by
        rw [e, ticks_wheelAngle, ih.2]
        exact hstep2 _ rfl rfl
      refine ⟨h2, ?_⟩
      rw [ticks_wheelAngle, h2]
      exact hstep1 _ rfl rfl
  · rw [abs_neg, abs_of_pos (by norm_num : (0 : α) < 36 / 25),
      abs_of_pos (by norm_num : (0 : α) < 39 / 25)]
    norm_num
end Steering

/-! ## Straight acceleration and frame rate -/

section Accel
variable {α : Type} [LinearOrderedField α]

theorem clip_of_mem (lo hi v : α) (h1 : lo ≤ v) (h2 : v ≤ hi) : clip lo hi v = v := by
  unfold clip
  dsimp only
  rw [if_neg (not_lt.mpr h2), if_neg (not_lt.mpr h1)]

theorem steerRad_zero : steerRad (0 : α) = 0 := by
  unfold steerRad
  ring

/-- Closed form of the car state while accelerating straight ahead from the
default car state, as long as neither the speed clamp nor the position clip
is reached. -/
theorem accel_closed_form (m : Libm α) (h : α) (h0 : 0 ≤ h) (w : World α)
    (hs : |m.sinf (180 * (PI α / 180))| ≤ 1) (hc : |m.cosf (180 * (PI α / 180))| ≤ 1)
    (hup : w.keys.keyUp = true) (hl : w.keys.keyLeft = false) (hr : w.keys.keyRight = false)
    (hcar : w.car = Car.init α) (n : Nat)
    (hv : 6 * (n : α) * h ≤ 8) (hd : 3 * h ^ 2 * (n : α) * ((n : α) + 1) ≤ 10) :
    (ticks m (fun _ => h) n w).car =
      { x := 3 * h ^ 2 * (n : α) * ((n : α) + 1) * m.sinf (180 * (PI α / 180)),
        y := 25 / 100,
        z := 6 + 3 * h ^ 2 * (n : α) * ((n : α) + 1) * m.cosf (180 * (PI α / 180)),
        heading := 180, speed := 6 * (n : α) * h, wheelAngle := 0 } := by
  induction n with
  | zero => simp [ticks, hcar, Car.init]
  | succ n ih =>
    have hn0 : (0 : α) ≤ n := Nat.cast_nonneg n
    push_cast at hv hd
    have hv1 : 6 * (n : α) * h ≤ 8 := by nlinarith
    have hd1 : 3 * h ^ 2 * (n : α) * ((n : α) + 1) ≤ 10 := by
      have : 0 ≤ h ^ 2 * ((n : α) + 1) := by positivity
      nlinarith
    have ihn := ih hv1 hd1
    have hkeys : (ticks m (fun _ => h) n w).keys = w.keys := ticks_keys m _ n w
    have hc0 : 0 ≤ 3 * h ^ 2 * ((n : α) + 1) * ((n : α) + 1 + 1) := by positivity
    obtain ⟨hs1, hs2⟩ := abs_le.mp hs
    obtain ⟨hc1, hc2⟩ := abs_le.mp hc
    have hst : steerUpdate w.keys h (0 : α) = 0 := by
      rw [steerUpdate_recenter w.keys hl hr, if_neg (by norm_num), if_neg (by norm_num)]
      exact clip_of_mem _ _ _ (by norm_num) (by norm_num)
    have hsp : speedUpdate w.keys h (6 * (n : α) * h) = 6 * ((n : α) + 1) * h := by
      unfold speedUpdate CAR_ACCEL MAX_SPEED MAX_REVERSE
      simp only [hup, if_true]
      have e : 6 * (n : α) * h + 6 * h = 6 * ((n : α) + 1) * h := by ring
      have hnn : 0 ≤ 6 * ((n : α) + 1) * h := by positivity
      rw [e]
      split_ifs <;> first | rfl | linarith
    have hhd : headingUpdate m h (0 : α) (6 * ((n : α) + 1) * h) 180 = 180 := by
      unfold headingUpdate
      rw [steerRad_zero, abs_zero, if_neg (by norm_num)]
    show carUpdate m (ticks m (fun _ => h) n w).keys h (ticks m (fun _ => h) n w).car = _
    rw [hkeys, ihn]
    unfold carUpdate
    simp only [hst, hsp, hhd]
    push_cast
    have ex : 3 * h ^ 2 * (n : α) * ((n : α) + 1) * m.sinf (180 * (PI α / 180))
          + m.sinf (180 * (PI α / 180)) * (6 * ((n : α) + 1) * h) * h
        = 3 * h ^ 2 * ((n : α) + 1) * ((n : α) + 1 + 1) * m.sinf (180 * (PI α / 180)) := by
      ring
    have ez : 6 + 3 * h ^ 2 * (n : α) * ((n : α) + 1) * m.cosf (180 * (PI α / 180))
          + m.cosf (180 * (PI α / 180)) * (6 * ((n : α) + 1) * h) * h
        = 6 + 3 * h ^ 2 * ((n : α) + 1) * ((n : α) + 1 + 1) * m.cosf (180 * (PI α / 180)) := by
      ring
    have bs1 := mul_le_mul_of_nonneg_left hs1 hc0
    have bs2 := mul_le_mul_of_nonneg_left hs2 hc0
    have bc1 := mul_le_mul_of_nonneg_left hc1 hc0
    have bc2 := mul_le_mul_of_nonneg_left hc2 hc0
    rw [ex, ez, clip_of_mem _ _ _ (by linarith) (by linarith),
      clip_of_mem _ _ _ (by linarith) (by linarith)]
end Accel

section FrameRate
variable {α : Type} [LinearOrderedField α]

end FrameRate

section Reverse
variable {α : Type} [LinearOrderedField α]

theorem updatePhysics_heading (m : Libm α) (dt : α) (w : World α) :
    (updatePhysics m dt w).car.heading
      = headingUpdate m dt (updatePhysics m dt w).car.wheelAngle
          (updatePhysics m dt w).car.speed w.car.heading := rfl

theorem ticks_heading (m : Libm α) (dts : Nat → α) (n : Nat) (w : World α) :
    (ticks m dts (n + 1) w).car.heading
      = headingUpdate m (dts n) (ticks m dts (n + 1) w).car.wheelAngle
          (ticks m dts (n + 1) w).car.speed (ticks m dts n w).car.heading := rfl

/-- While the heading branch is taken, the heading moves by
`speed * tanf steerRad / WHEEL_BASE * (180 / PI) * dt`. -/
theorem headingUpdate_of_steer (m : Libm α) (dt a v θ : α) (h : 1 / 10000 < |steerRad a|) :
    headingUpdate m dt a v θ
      = θ + v * m.tanf (steerRad a) / WHEEL_BASE α * (180 / PI α) * dt := by
  unfold headingUpdate angVel turnRadius WHEEL_BASE
  rw [if_pos h]
  simp only [one_div, div_inv_eq_mul, div_one]

/-- With the auto-centring step `60 * (1 / 50) = 6 / 5`, a wheel angle that is
a multiple `j ≤ 25` of `6 / 5` goes to the next lower multiple, or stays 0. -/
theorem steerUpdate_grid (k : Keys) (hl : k.keyLeft = false) (hr : k.keyRight = false)
    (j : Nat) (hj : j ≤ 25) :
    steerUpdate k (1 / 50 : α) (6 / 5 * (j : α)) = 6 / 5 * ((j - 1 : Nat) : α) := by
  rw [steerUpdate_recenter k hl hr]
  have hj25 : (j : α) ≤ 25 := by exact_mod_cast hj
  rcases Nat.eq_zero_or_pos j with h0 | hpos
  · subst h0
    norm_num [clip]
  · have hj1 : (1 : α) ≤ j := by exact_mod_cast hpos
    rw [if_pos (by linarith), Nat.cast_sub hpos, Nat.cast_one]
    rw [clip_of_mem _ _ _ (by linarith) (by linarith)]
    ring

theorem reverse_run_invariant (m : Libm α) (n : Nat) :
    (ticks m (fun _ => 1 / 50) n (reverseWorld α)).car.speed ≤ 0 ∧
    ∃ j : Nat, j ≤ 25 ∧
      (ticks m (fun _ => 1 / 50) n (reverseWorld α)).car.wheelAngle = 6 / 5 * (j : α) := by
  induction n with
  | zero =>
    refine ⟨?_, 25, le_rfl, ?_⟩
    · show (-2 : α) ≤ 0
      norm_num
    · show (30 : α) = 6 / 5 * ((25 : Nat) : α)
      norm_num
  | succ n ih =>
    obtain ⟨hv, j, hj, hw⟩ := ih
    refine ⟨?_, j - 1, by omega, ?_⟩
    · rw [ticks_speed]
      exact ((friction_step (reverseWorld α).keys rfl rfl 0 (1 / 50) _ le_rfl
        (by norm_num)).2 hv).2.1
    · rw [ticks_wheelAngle, hw]
      exact steerUpdate_grid _ rfl rfl j hj

end Reverse

theorem real_steerRad_bounds (a : ℝ) (h0 : 0 ≤ a) (h30 : a ≤ 30) :
    0 ≤ steerRad a ∧ steerRad a < Real.pi / 2 := by
  have hpi := Real.pi_gt_three
  unfold steerRad PI
  constructor
  · positivity
  · nlinarith

/-- In reverse (`v ≤ 0`) with the wheels at `0 ≤ a ≤ 30` the heading never
increases. -/
theorem real_heading_nonincreasing (dt a v θ : ℝ) (hdt : 0 ≤ dt) (h0 : 0 ≤ a) (h30 : a ≤ 30)
    (hv : v ≤ 0) :
    headingUpdate ⟨Real.sin, Real.cos, Real.tan⟩ dt a v θ ≤ θ := by
  obtain ⟨hs0, hs1⟩ := real_steerRad_bounds a h0 h30
  have ht : 0 ≤ Real.tan (steerRad a) :=
    Real.tan_nonneg_of_nonneg_of_le_pi_div_two hs0 hs1.le
  by_cases h : 1 / 10000 < |steerRad a|
  · rw [headingUpdate_of_steer _ _ _ _ _ h]
    have hP : (0 : ℝ) < 180 / PI ℝ := by unfold PI; norm_num
    have h1 : v * Real.tan (steerRad a) ≤ 0 := mul_nonpos_of_nonpos_of_nonneg hv ht
    have h2 : v * Real.tan (steerRad a) / WHEEL_BASE ℝ * (180 / PI ℝ) * dt ≤ 0 := by
      unfold WHEEL_BASE
      rw [div_one]
      exact mul_nonpos_of_nonpos_of_nonneg (mul_nonpos_of_nonpos_of_nonneg h1 hP.le) hdt
    linarith
  · unfold headingUpdate
    rw [if_neg h]

/-- C5: the heading update uses the signed speed.  In a tick with `dt > 0`
after which the speed is negative and the wheel angle `φ` satisfies
`0 < φ ≤ 30` with `steerRad φ > 1e-4`, the heading strictly decreases, and
it changes by exactly `speed * tan (steerRad φ) / WHEEL_BASE * (180 / PI) * dt`
(`tan` the true tangent, `PI` the constant of the program).  And from the
default state with `speed = -2`, `wheelAngle = +30` and no key held, the
heading after 50 ticks of `dt = 0.02` is strictly below 180. -/
theorem reverse_steer_heading (w : World ℝ) (dt : ℝ) (hdt : 0 < dt)
    (hv : (updatePhysics ⟨Real.sin, Real.cos, Real.tan⟩ dt w).car.speed < 0)
    (ha0 : 0 < (updatePhysics ⟨Real.sin, Real.cos, Real.tan⟩ dt w).car.wheelAngle)
    (ha30 : (updatePhysics ⟨Real.sin, Real.cos, Real.tan⟩ dt w).car.wheelAngle ≤ 30)
    (hrad : 1 / 10000
      < steerRad (updatePhysics ⟨Real.sin, Real.cos, Real.tan⟩ dt w).car.wheelAngle) :
    ((updatePhysics ⟨Real.sin, Real.cos, Real.tan⟩ dt w).car.heading < w.car.heading ∧
     (updatePhysics ⟨Real.sin, Real.cos, Real.tan⟩ dt w).car.heading - w.car.heading
       = (updatePhysics ⟨Real.sin, Real.cos, Real.tan⟩ dt w).car.speed
          * Real.tan (steerRad (updatePhysics ⟨Real.sin, Real.cos, Real.tan⟩ dt w).car.wheelAngle)
          / WHEEL_BASE ℝ * (180 / PI ℝ) * dt) ∧
    (ticks ⟨Real.sin, Real.cos, Real.tan⟩ (fun _ => 1 / 50) 50 (reverseWorld ℝ)).car.heading
      < 180 := by
  have key : ∀ (dt a v θ : ℝ), 0 < dt → v < 0 → 0 < a → a ≤ 30 → 1 / 10000 < steerRad a →
      headingUpdate ⟨Real.sin, Real.cos, Real.tan⟩ dt a v θ < θ ∧
      headingUpdate ⟨Real.sin, Real.cos, Real.tan⟩ dt a v θ - θ
        = v * Real.tan (steerRad a) / WHEEL_BASE ℝ * (180 / PI ℝ) * dt := by
    intro dt a v θ hdt hv ha0 ha30 hrad
    obtain ⟨hs0, hs1⟩ := real_steerRad_bounds a ha0.le ha30
    have hspos : 0 < steerRad a := by linarith
    have ht : 0 < Real.tan (steerRad a) := Real.tan_pos_of_pos_of_lt_pi_div_two hspos hs1
    rw [headingUpdate_of_steer _ _ _ _ _ (by rw [abs_of_pos hspos]; exact hrad)]
    have hP : (0 : ℝ) < 180 / PI ℝ := by unfold PI; norm_num
    have h1 : v * Real.tan (steerRad a) < 0 := mul_neg_of_neg_of_pos hv ht
    have h2 : v * Real.tan (steerRad a) / WHEEL_BASE ℝ * (180 / PI ℝ) * dt < 0 := by
      unfold WHEEL_BASE
      rw [div_one]
      exact mul_neg_of_neg_of_pos (mul_neg_of_neg_of_pos h1 hP) hdt
    constructor
    · show (_ : ℝ) < _
      linarith
    · show (_ : ℝ) = _
      ring
  refine ⟨?_, ?_⟩
  · rw [updatePhysics_heading]
    exact key dt _ _ _ hdt hv ha0 ha30 hrad
  · have hmono : ∀ n, (ticks ⟨Real.sin, Real.cos, Real.tan⟩ (fun _ => 1 / 50) (n + 1)
          (reverseWorld ℝ)).car.heading
        ≤ (ticks ⟨Real.sin, Real.cos, Real.tan⟩ (fun _ => 1 / 50) 1
          (reverseWorld ℝ)).car.heading := by
      intro n
      induction n with
      | zero => exact le_rfl
      | succ n ih =>
        refine le_trans ?_ ih
        rw [ticks_heading]
        obtain ⟨hv, j, hj, hw⟩ :=
          reverse_run_invariant (⟨Real.sin, Real.cos, Real.tan⟩ : Libm ℝ) (n + 1 + 1)
        have hj25 : (j : ℝ) ≤ 25 := by exact_mod_cast hj
        have hj0 : (0 : ℝ) ≤ j := Nat.cast_nonneg j
        exact real_heading_nonincreasing _ _ _ _ (by norm_num) (by rw [hw]; positivity)
          (by rw [hw]; linarith) hv
    refine lt_of_le_of_lt (hmono 49) ?_
    have hsp : (ticks ⟨Real.sin, Real.cos, Real.tan⟩ (fun _ => 1 / 50) 1
        (reverseWorld ℝ)).car.speed = -(97 / 50) := by
      rw [ticks_speed]
      show speedUpdate (reverseWorld ℝ).keys (1 / 50) (-2 : ℝ) = _
      unfold speedUpdate CAR_ACCEL FRICTION MAX_SPEED MAX_REVERSE
      simp only [show (reverseWorld ℝ).keys.keyUp = false from rfl,
        show (reverseWorld ℝ).keys.keyDown = false from rfl, Bool.false_eq_true, if_false]
      norm_num
    have hwa : (ticks ⟨Real.sin, Real.cos, Real.tan⟩ (fun _ => 1 / 50) 1
        (reverseWorld ℝ)).car.wheelAngle = 144 / 5 := by
      rw [ticks_wheelAngle]
      show steerUpdate (reverseWorld ℝ).keys (1 / 50) (30 : ℝ) = _
      have h : steerUpdate (reverseWorld ℝ).keys (1 / 50 : ℝ) (6 / 5 * ((25 : Nat) : ℝ)) = _ :=
        steerUpdate_grid (reverseWorld ℝ).keys rfl rfl 25 le_rfl
      have e : (6 : ℝ) / 5 * ((25 : Nat) : ℝ) = 30 := by norm_num
      rw [e] at h
      rw [h]
      norm_num
    rw [ticks_heading, hsp, hwa]
    exact (key (1 / 50) (144 / 5) (-(97 / 50)) _ (by norm_num) (by norm_num) (by norm_num)
      (by norm_num) (by unfold steerRad PI; norm_num)).1

/-- Witness for C5: the first tick of the reverse-steering scenario. -/
theorem reverse_steer_heading_witness :
    (updatePhysics ⟨Real.sin, Real.cos, Real.tan⟩ (1 / 50) (reverseWorld ℝ)).car.speed < 0 ∧
    (updatePhysics ⟨Real.sin, Real.cos, Real.tan⟩ (1 / 50) (reverseWorld ℝ)).car.heading
      < (reverseWorld ℝ).car.heading :=
  have hv : (updatePhysics ⟨Real.sin, Real.cos, Real.tan⟩ (1 / 50) (reverseWorld ℝ)).car.speed
      = -(97 / 50) := by
    norm_num [updatePhysics, carUpdate, speedUpdate, reverseWorld, World.init, Car.init,
      Keys.init, CAR_ACCEL, FRICTION, MAX_SPEED, MAX_REVERSE]
  have ha : (updatePhysics ⟨Real.sin, Real.cos, Real.tan⟩ (1 / 50)
      (reverseWorld ℝ)).car.wheelAngle = 144 / 5 := by
    norm_num [updatePhysics, carUpdate, steerUpdate, reverseWorld, World.init, Car.init,
      Keys.init, WHEEL_SPEED_DEG, MAX_WHEEL_DEG]
  ⟨by rw [hv]; norm_num,
   (reverse_steer_heading (reverseWorld ℝ) (1 / 50) (by norm_num) (by rw [hv]; norm_num)
    (by rw [ha]; norm_num) (by rw [ha]; norm_num)
    (by rw [ha]; norm_num [steerRad, PI])).1.1⟩

/-! ## Opposite inputs held together -/

section Inputs
variable {α : Type} [LinearOrderedField α]

/-- C6: simultaneously held opposite inputs are resolved by priority.  For
every state, `dt` and library functions, a tick with `keyLeft` and
`keyRight` both held gives the same car and camera as the tick with only
`keyLeft` held, and a tick with `keyUp` and `keyDown` both held gives the
same car and camera as the tick with only `keyUp` held (the other flags
being whatever they are). -/
theorem opposite_inputs_priority (m : Libm α) (dt : α) (w : World α) :
    ((updatePhysics m dt
        { w with keys := { w.keys with keyLeft := true, keyRight := true } }).car
      = (updatePhysics m dt
        { w with keys := { w.keys with keyLeft := true, keyRight := false } }).car ∧
     (updatePhysics m dt
        { w with keys := { w.keys with keyLeft := true, keyRight := true } }).cam
      = (updatePhysics m dt
        { w with keys := { w.keys with keyLeft := true, keyRight := false } }).cam) ∧
    ((updatePhysics m dt
        { w with keys := { w.keys with keyUp := true, keyDown := true } }).car
      = (updatePhysics m dt
        { w with keys := { w.keys with keyUp := true, keyDown := false } }).car ∧
     (updatePhysics m dt
        { w with keys := { w.keys with keyUp := true, keyDown := true } }).cam
      = (updatePhysics m dt
        { w with keys := { w.keys with keyUp := true, keyDown := false } }).cam) := by
  refine ⟨⟨?_, rfl⟩, ⟨?_, rfl⟩⟩
  · simp only [updatePhysics, carUpdate, steerUpdate, speedUpdate, if_true]
  · simp only [updatePhysics, carUpdate, steerUpdate, speedUpdate, if_true]

/-! ## Delta-time of the clock -/

theorem wrapInt32_of_mem (z : Int) (h1 : -2147483648 ≤ z) (h2 : z ≤ 2147483647) :
    wrapInt32 z = z := by
  unfold wrapInt32
  omega

theorem timerDt_bounds (now last : Int) :
    0 < timerDt α now last ∧ timerDt α now last ≤ 5 / 10 := by
  unfold timerDt
  dsimp only
  split_ifs with h
  · constructor <;> norm_num
  · push_neg at h
    exact ⟨h.1, h.2⟩

/-- Every delta-time the clock hands to `updatePhysics` is at least one
millisecond: it is either `0.016` or a positive whole number of
milliseconds. -/
theorem timerDt_ge_millisecond (now last : Int) : 1 / 1000 ≤ timerDt α now last := by
  unfold timerDt
  dsimp only
  split_ifs with h
  · norm_num
  · push_neg at h
    have h0 : 0 < wrapInt32 (now - last) := by
      by_contra hc
      push_neg at hc
      have hc1 : ((wrapInt32 (now - last) : Int) : α) ≤ 0 := by exact_mod_cast hc
      have := div_nonpos_of_nonpos_of_nonneg hc1 (by norm_num : (0 : α) ≤ 1000)
      linarith [h.1]
    have h1 : (1 : α) ≤ ((wrapInt32 (now - last) : Int) : α) := by exact_mod_cast h0
    exact div_le_div_of_nonneg_right h1 (by norm_num)

/-- C7: the delta-time of the clock.  Whenever `now - last` does not
overflow a 32-bit `int` (always the case for two readings of the
non-negative millisecond counter), the `dt` handed to `updatePhysics` is
`(now - last) / 1000` when `0 < (now - last) / 1000 ≤ 0.5` and `0.016`
otherwise; on the first tick, where `last` is initialised with `now`, it is
`0.016`; and whatever the two readings are, `0 < dt ≤ 0.5`. -/
theorem timer_delta (now last : Int) :
    (-2147483648 ≤ now - last → now - last ≤ 2147483647 →
      (0 < ((now - last : Int) : α) / 1000 ∧ ((now - last : Int) : α) / 1000 ≤ 5 / 10 →
        timerDt α now last = ((now - last : Int) : α) / 1000) ∧
      (¬ (0 < ((now - last : Int) : α) / 1000 ∧ ((now - last : Int) : α) / 1000 ≤ 5 / 10) →
        timerDt α now last = 16 / 1000)) ∧
    timerDt α now now = 16 / 1000 ∧
    (0 < timerDt α now last ∧ timerDt α now last ≤ 5 / 10) ∧
    (∀ (m : Libm α) (w : World α),
      timerFunc m now w
        = updatePhysics m (timerDt α now (w.last.getD now)) { w with last := some now }) ∧
    (∀ (m : Libm α) (w : World α), w.last = none →
      timerFunc m now w = updatePhysics m (16 / 1000) { w with last := some now }) := by
  have hself : timerDt α now now = 16 / 1000 := by
    unfold timerDt
    simp [wrapInt32]
  refine ⟨?_, hself, timerDt_bounds now last, fun m w => rfl, ?_⟩
  · intro h1 h2
    have hw := wrapInt32_of_mem (now - last) h1 h2
    unfold timerDt
    simp only [hw]
    constructor
    · rintro ⟨h3, h4⟩
      rw [if_neg]
      push_neg
      exact ⟨h3, h4⟩
    · intro h3
      rw [if_pos]
      by_contra hcon
      push_neg at hcon
      exact h3 ⟨hcon.1, hcon.2⟩
  · intro m w hnone
    show updatePhysics m (timerDt α now (w.last.getD now)) _ = _
    rw [hnone, Option.getD_none, hself]

/-- Witness for C7: a 16 ms frame and a 1.5 s stall. -/
theorem timer_delta_witness :
    timerDt ℚ 516 500 = ((516 - 500 : Int) : ℚ) / 1000 ∧
    timerDt ℚ 2000 500 = 16 / 1000 :=
  ⟨((timer_delta 516 500).1 (by decide) (by decide)).1 (by norm_num),
   ((timer_delta 2000 500).1 (by decide) (by decide)).2 (by norm_num)⟩

end Inputs

/-! ## Reachable states: camera floor and reset -/

section Reachable
variable {α : Type} [LinearOrderedField α]

/-- A property that holds initially and is kept by every callback holds in
every state the event loop reaches. -/
theorem run_invariant (m : Libm α) (P : World α → Prop)
    (hstep : ∀ e w w1, P w → step m e w = some w1 → P w1)
    (es : List Event) (w0 w : World α) (h0 : P w0) (h : run m es w0 = some w) : P w := by
  induction es generalizing w0 with
  | nil =>
    simp only [run, Option.some.injEq] at h
    exact h ▸ h0
  | cons e es ih =>
    simp only [run] at h
    cases hs : step m e w0 with
    | none => rw [hs] at h; cases h
    | some w1 =>
      rw [hs] at h
      exact ih w1 (hstep e w0 w1 h0 hs) h

theorem keyboardDown_cam_car (key : Char) (w w1 : World α) (h : keyboardDown key w = some w1) :
    (w1.cam = w.cam ∧ w1.car = w.car) ∨
    (w1.cam = { w.cam with x := 0, y := 32 / 10, z := 10 } ∧
     w1.car = { w.car with x := 0, z := 6, heading := 180, speed := 0, wheelAngle := 0 }) := by
  unfold keyboardDown at h
  split_ifs at h <;> simp only [Option.some.injEq] at h <;> subst h <;> simp

theorem keyboardUp_cam_car (key : Char) (w : World α) :
    (keyboardUp key w).cam = w.cam ∧ (keyboardUp key w).car = w.car := by
  unfold keyboardUp
  split_ifs <;> exact ⟨rfl, rfl⟩

theorem specialDown_cam_car (key : Int) (w : World α) :
    (specialDown key w).cam = w.cam ∧ (specialDown key w).car = w.car := by
  unfold specialDown
  split_ifs <;> exact ⟨rfl, rfl⟩

theorem specialUp_cam_car (key : Int) (w : World α) :
    (specialUp key w).cam = w.cam ∧ (specialUp key w).car = w.car := by
  unfold specialUp
  split_ifs <;> exact ⟨rfl, rfl⟩

theorem cameraUpdate_floor (k : Keys) (dt : α) (c : Camera α) (hdt : 0 ≤ dt)
    (hs : c.speed = 6) (hy : 5 / 10 ≤ c.y) :
    (cameraUpdate k dt c).speed = 6 ∧ 5 / 10 ≤ (cameraUpdate k dt c).y := by
  refine ⟨hs, ?_⟩
  have hcs : 0 ≤ c.speed * dt := by rw [hs]; positivity
  unfold cameraUpdate
  dsimp only
  split_ifs <;> linarith

theorem step_camera_invariant (m : Libm α) (e : Event) (w w1 : World α)
    (hP : w.cam.speed = 6 ∧ 5 / 10 ≤ w.cam.y) (h : step m e w = some w1) :
    w1.cam.speed = 6 ∧ 5 / 10 ≤ w1.cam.y := by
  cases e with
  | keyboardDown key =>
    rcases keyboardDown_cam_car key w w1 h with hc | hc
    · rw [hc.1]; exact hP
    · rw [hc.1]
      exact ⟨hP.1, by norm_num⟩
  | keyboardUp key =>
    simp only [step, Option.some.injEq] at h
    rw [← h, (keyboardUp_cam_car key w).1]; exact hP
  | specialDown key =>
    simp only [step, Option.some.injEq] at h
    rw [← h, (specialDown_cam_car key w).1]; exact hP
  | specialUp key =>
    simp only [step, Option.some.injEq] at h
    rw [← h, (specialUp_cam_car key w).1]; exact hP
  | timer now =>
    simp only [step, Option.some.injEq] at h
    rw [← h]
    exact cameraUpdate_floor w.keys _ w.cam (timerDt_bounds now _).1.le hP.1 hP.2

theorem step_car_y (m : Libm α) (e : Event) (w w1 : World α)
    (hP : w.car.y = 25 / 100) (h : step m e w = some w1) : w1.car.y = 25 / 100 := by
  cases e with
  | keyboardDown key =>
    rcases keyboardDown_cam_car key w w1 h with hc | hc
    · rw [hc.2]; exact hP
    · rw [hc.2]; exact hP
  | keyboardUp key =>
    simp only [step, Option.some.injEq] at h
    rw [← h, (keyboardUp_cam_car key w).2]; exact hP
  | specialDown key =>
    simp only [step, Option.some.injEq] at h
    rw [← h, (specialDown_cam_car key w).2]; exact hP
  | specialUp key =>
    simp only [step, Option.some.injEq] at h
    rw [← h, (specialUp_cam_car key w).2]; exact hP
  | timer now =>
    simp only [step, Option.some.injEq] at h
    rw [← h]
    exact hP

/-- C8: camera height invariant.  In every state the event loop reaches
from the initial state (camera `y = 3.2`) by any interleaving of key
presses and releases, resets and timer ticks, whatever the clock readings
and whichever flags are held, `cam.y ≥ 0.5`; in particular after every
tick. -/
theorem camera_height_invariant (m : Libm α) (es : List Event) (w : World α)
    (h : run m es (World.init α) = some w) : 5 / 10 ≤ w.cam.y :=
  (run_invariant m (fun w => w.cam.speed = 6 ∧ 5 / 10 ≤ w.cam.y)
    (step_camera_invariant m) es (World.init α) w
    ⟨rfl, by show (5 : α) / 10 ≤ 32 / 10; norm_num⟩ h).2

/-- C9: in every state the event loop reaches, the reset command (key `r`
of `keyboardDown`) yields a state whose car is exactly
`(x 0, y 0.25, z 6, heading 180, speed 0, wheelAngle 0)` and whose camera
position is exactly `(0, 3.2, 10)`.  The reset writes every one of these
fields but `car.y`, which no code of the program ever writes. -/
theorem reset_restores_defaults (m : Libm α) (es : List Event) (w : World α)
    (h : run m es (World.init α) = some w) :
    ∃ w1, keyboardDown 'r' w = some w1 ∧
      w1.car = { x := 0, y := 25 / 100, z := 6, heading := 180, speed := 0, wheelAngle := 0 } ∧
      w1.cam.x = 0 ∧ w1.cam.y = 32 / 10 ∧ w1.cam.z = 10 := by
  have hy : w.car.y = 25 / 100 :=
    run_invariant m (fun w => w.car.y = 25 / 100) (step_car_y m) es (World.init α) w rfl h
  refine ⟨{ w with
      car := { w.car with x := 0, z := 6, heading := 180, speed := 0, wheelAngle := 0 },
      cam := { w.cam with x := 0, y := 32 / 10, z := 10 } }, ?_, ?_, rfl, rfl, rfl⟩
  · unfold keyboardDown
    simp
  · simp [hy]

end Reachable

/-- Witness for C8: with the down key held, a 16 ms frame and two 400 ms
frames bring the camera from 3.2 to the floor 0.5; a further 400 ms frame
with the up key held as well leaves it there. -/
theorem camera_height_invariant_witness :
    ∃ w : World ℚ,
      run ⟨fun _ => 0, fun _ => -1, fun x => x⟩
        [Event.keyboardDown 'e', Event.timer 0, Event.timer 400, Event.timer 800,
          Event.keyboardDown 'q', Event.timer 1200] (World.init ℚ) = some w ∧
      5 / 10 ≤ w.cam.y :=
  ⟨_, rfl, camera_height_invariant ⟨fun _ => 0, fun _ => -1, fun x => x⟩
    [Event.keyboardDown 'e', Event.timer 0, Event.timer 400, Event.timer 800,
      Event.keyboardDown 'q', Event.timer 1200] _ rfl⟩

/-- Witness for C9: reset after a first tick, a throttle press and a second tick. -/
theorem reset_restores_defaults_witness :
    ∃ w1 : World ℚ,
      keyboardDown 'r'
        (timerFunc ⟨fun _ => 0, fun _ => -1, fun x => x⟩ 16
          (specialDown GLUT_KEY_UP
            (timerFunc ⟨fun _ => 0, fun _ => -1, fun x => x⟩ 0 (World.init ℚ)))) = some w1 ∧
      w1.car = { x := 0, y := 25 / 100, z := 6, heading := 180, speed := 0, wheelAngle := 0 } ∧
      w1.cam.x = 0 ∧ w1.cam.y = 32 / 10 ∧ w1.cam.z = 10 :=
  reset_restores_defaults ⟨fun _ => 0, fun _ => -1, fun x => x⟩
    [Event.timer 0, Event.specialDown GLUT_KEY_UP, Event.timer 16] _ rfl

/-! ## No division by zero in the heading branch -/

/-- After the steering clamp the steer angle in radians is strictly inside
`(-π/2, π/2)`: `30 * PI / 180 < π / 2`. -/
theorem real_steerRad_abs_lt (a : ℝ) (h : |a| ≤ 30) : |steerRad a| < Real.pi / 2 := by
  have hpi := Real.pi_gt_three
  have hP : (0 : ℝ) < PI ℝ / 180 := by unfold PI; norm_num
  unfold steerRad
  rw [abs_mul, abs_of_pos hP]
  have : |a| * (PI ℝ / 180) ≤ 30 * (PI ℝ / 180) := mul_le_mul_of_nonneg_right h hP.le
  unfold PI at this ⊢
  linarith

/-- C10: no division by zero in the heading branch.  For every state, flag
set and `dt`, when the wheel angle left by the steering step (clamped to
`[-30, 30]`) has `|steerRad| > 1e-4`, the true tangent of `steerRad` is
defined (`cos steerRad ≠ 0`) and non-zero, and the turning radius
`R = WHEEL_BASE / tan steerRad` is non-zero: neither `WHEEL_BASE / tan
steerRad` nor `speed / R` divides by zero. -/
theorem heading_branch_divisors_nonzero (w : World ℝ) (dt : ℝ)
    (h : 1 / 10000
      < |steerRad (updatePhysics ⟨Real.sin, Real.cos, Real.tan⟩ dt w).car.wheelAngle|) :
    Real.cos (steerRad (updatePhysics ⟨Real.sin, Real.cos, Real.tan⟩ dt w).car.wheelAngle) ≠ 0 ∧
    Real.tan (steerRad (updatePhysics ⟨Real.sin, Real.cos, Real.tan⟩ dt w).car.wheelAngle) ≠ 0 ∧
    turnRadius ⟨Real.sin, Real.cos, Real.tan⟩
      (steerRad (updatePhysics ⟨Real.sin, Real.cos, Real.tan⟩ dt w).car.wheelAngle) ≠ 0 := by
  have hb : |(updatePhysics ⟨Real.sin, Real.cos, Real.tan⟩ dt w).car.wheelAngle| ≤ 30 := by
    have hc := steerUpdate_bounds w.keys dt w.car.wheelAngle
    unfold MAX_WHEEL_DEG at hc
    exact abs_le.mpr ⟨hc.1, hc.2⟩
  have hlt := real_steerRad_abs_lt _ hb
  obtain ⟨h1, h2⟩ := abs_lt.mp hlt
  have hpi := Real.pi_pos
  have hne : steerRad (updatePhysics ⟨Real.sin, Real.cos, Real.tan⟩ dt w).car.wheelAngle ≠ 0 := by
    intro h0
    rw [h0, abs_zero] at h
    norm_num at h
  have hcos : 0 < Real.cos
      (steerRad (updatePhysics ⟨Real.sin, Real.cos, Real.tan⟩ dt w).car.wheelAngle) :=
    Real.cos_pos_of_mem_Ioo ⟨by linarith, h2⟩
  have hsin : Real.sin
      (steerRad (updatePhysics ⟨Real.sin, Real.cos, Real.tan⟩ dt w).car.wheelAngle) ≠ 0 := by
    intro hs
    exact hne ((Real.sin_eq_zero_iff_of_lt_of_lt (by linarith) (by linarith)).mp hs)
  have htan : Real.tan
      (steerRad (updatePhysics ⟨Real.sin, Real.cos, Real.tan⟩ dt w).car.wheelAngle) ≠ 0 := by
    rw [Real.tan_eq_sin_div_cos]
    exact div_ne_zero hsin hcos.ne.symm
  refine ⟨hcos.ne.symm, htan, ?_⟩
  unfold turnRadius WHEEL_BASE
  exact div_ne_zero one_ne_zero htan

/-- Witness for C10: the first tick of the reverse-steering scenario. -/
theorem heading_branch_divisors_nonzero_witness :
    turnRadius ⟨Real.sin, Real.cos, Real.tan⟩
      (steerRad (updatePhysics ⟨Real.sin, Real.cos, Real.tan⟩ (1 / 50)
        (reverseWorld ℝ)).car.wheelAngle) ≠ 0 :=
  have ha : (updatePhysics ⟨Real.sin, Real.cos, Real.tan⟩ (1 / 50)
      (reverseWorld ℝ)).car.wheelAngle = 144 / 5 := by
    norm_num [updatePhysics, carUpdate, steerUpdate, reverseWorld, World.init, Car.init,
      Keys.init, WHEEL_SPEED_DEG, MAX_WHEEL_DEG]
  (heading_branch_divisors_nonzero (reverseWorld ℝ) (1 / 50)
    (by rw [ha]; norm_num [steerRad, PI, abs_of_pos])).2.2

/-! ## Pure acceleration: twenty ticks of 0.1 s -/

section Saturation
variable {α : Type} [LinearOrderedField α]

/-- One tick of `dt = 0.1` with the accelerator held, the wheels straight and
the speed already within `0.6` of `MAX_SPEED`: the speed is clamped to 8 and
the car advances by `8 * 0.1 = 0.8` along the heading 180. -/
theorem accel_saturated_step (m : Libm α) (k : Keys)
    (hsn : |m.sinf (180 * (PI α / 180))| ≤ 1 / 2)
    (hc1 : -1 ≤ m.cosf (180 * (PI α / 180))) (hc0 : m.cosf (180 * (PI α / 180)) ≤ 0)
    (hup : k.keyUp = true) (hl : k.keyLeft = false) (hr : k.keyRight = false)
    (a v : α) (ha0 : 0 ≤ a) (ha : a + 8 / 10 ≤ 12) (hv : 74 / 10 ≤ v) :
    carUpdate m k (1 / 10)
        { x := a * m.sinf (180 * (PI α / 180)), y := 25 / 100,
          z := 6 + a * m.cosf (180 * (PI α / 180)),
          heading := 180, speed := v, wheelAngle := 0 }
      = { x := (a + 8 / 10) * m.sinf (180 * (PI α / 180)), y := 25 / 100,
          z := 6 + (a + 8 / 10) * m.cosf (180 * (PI α / 180)),
          heading := 180, speed := 8, wheelAngle := 0 } := by
  obtain ⟨hs1, hs2⟩ := abs_le.mp hsn
  have hst : steerUpdate k (1 / 10 : α) 0 = 0 := by
    rw [steerUpdate_recenter k hl hr, if_neg (by norm_num), if_neg (by norm_num)]
    exact clip_of_mem _ _ _ (by norm_num) (by norm_num)
  have hsp : speedUpdate k (1 / 10 : α) v = 8 := by
    unfold speedUpdate CAR_ACCEL MAX_SPEED MAX_REVERSE
    simp only [hup, if_true]
    split_ifs <;> linarith
  have hhd : headingUpdate m (1 / 10 : α) 0 8 180 = 180 := by
    unfold headingUpdate
    rw [steerRad_zero, abs_zero, if_neg (by norm_num)]
  have hb : 0 ≤ a + 8 / 10 := by linarith
  have bs1 := mul_le_mul_of_nonneg_left hs1 hb
  have bs2 := mul_le_mul_of_nonneg_left hs2 hb
  have bc1 := mul_le_mul_of_nonneg_left hc1 hb
  have bc2 := mul_le_mul_of_nonneg_left hc0 hb
  have ex : a * m.sinf (180 * (PI α / 180)) + m.sinf (180 * (PI α / 180)) * 8 * (1 / 10)
      = (a + 8 / 10) * m.sinf (180 * (PI α / 180)) := by ring
  have ez : 6 + a * m.cosf (180 * (PI α / 180)) + m.cosf (180 * (PI α / 180)) * 8 * (1 / 10)
      = 6 + (a + 8 / 10) * m.cosf (180 * (PI α / 180)) := by ring
  unfold carUpdate
  simp only [hst, hsp, hhd]
  rw [ex, ez, clip_of_mem _ _ _ (by linarith) (by linarith),
    clip_of_mem _ _ _ (by linarith) (by linarith)]

/-- The car after `13 + (j + 1)` ticks of `dt = 0.1` of straight
acceleration from the default car state, for `j ≤ 6`: thirteen ticks bring
the speed to 7.8 and the distance covered to 5.46; every later tick runs at
the clamped speed 8 and adds 0.8. -/
theorem accel_saturated_closed_form (m : Libm α) (w : World α)
    (hsn : |m.sinf (180 * (PI α / 180))| ≤ 1 / 2)
    (hc1 : -1 ≤ m.cosf (180 * (PI α / 180))) (hc0 : m.cosf (180 * (PI α / 180)) ≤ 0)
    (hup : w.keys.keyUp = true) (hl : w.keys.keyLeft = false) (hr : w.keys.keyRight = false)
    (hcar : w.car = Car.init α) (j : Nat) (hj : j ≤ 6) :
    (ticks m (fun _ => 1 / 10) (13 + (j + 1)) w).car =
      { x := (546 / 100 + 8 / 10 * ((j : α) + 1)) * m.sinf (180 * (PI α / 180)),
        y := 25 / 100,
        z := 6 + (546 / 100 + 8 / 10 * ((j : α) + 1)) * m.cosf (180 * (PI α / 180)),
        heading := 180, speed := 8, wheelAngle := 0 } := by
  have hkeys : ∀ n, (ticks m (fun _ => (1 : α) / 10) n w).keys = w.keys :=
    fun n => ticks_keys m _ n w
  induction j with
  | zero =>
    have h13 := accel_closed_form m (1 / 10) (by norm_num) w
      (hsn.trans (by norm_num)) (abs_le.mpr ⟨hc1, hc0.trans zero_le_one⟩) hup hl hr hcar 13
      (by norm_num) (by norm_num)
    show carUpdate m (ticks m (fun _ => (1 : α) / 10) 13 w).keys (1 / 10)
      (ticks m (fun _ => (1 : α) / 10) 13 w).car = _
    rw [hkeys, h13]
    have e1 : 3 * ((1 : α) / 10) ^ 2 * ((13 : Nat) : α) * (((13 : Nat) : α) + 1) = 546 / 100 := by
      norm_num
    have e2 : 6 * ((13 : Nat) : α) * (1 / 10) = 78 / 10 := by norm_num
    rw [e1, e2, accel_saturated_step m w.keys hsn hc1 hc0 hup hl hr _ _ (by norm_num)
      (by norm_num) (by norm_num)]
    norm_num
  | succ j ih =>
    have hj6 : (j : α) ≤ 5 := by exact_mod_cast (by omega : j ≤ 5)
    have hj0 : (0 : α) ≤ j := Nat.cast_nonneg j
    show carUpdate m (ticks m (fun _ => (1 : α) / 10) (13 + (j + 1)) w).keys (1 / 10)
      (ticks m (fun _ => (1 : α) / 10) (13 + (j + 1)) w).car = _
    rw [hkeys, ih (by omega), accel_saturated_step m w.keys hsn hc1 hc0 hup hl hr _ _
      (by linarith) (by linarith) (by norm_num)]
    push_cast
    ring_nf

end Saturation

/-- The heading 180 in radians, computed with the constant `PI` of the
program, exceeds `π` by about `8.74e-8`: its true sine is negative and above
`-1e-7`, its true cosine is within `1e-14` of `-1`. -/
theorem real_trig_at_heading_180 :
    (-(1 / 10 ^ 7) < Real.sin (180 * (PI ℝ / 180)) ∧ Real.sin (180 * (PI ℝ / 180)) < 0) ∧
    (-1 ≤ Real.cos (180 * (PI ℝ / 180)) ∧
      Real.cos (180 * (PI ℝ / 180)) ≤ -(1 - 1 / 10 ^ 14)) := by
  have key : ∀ y : ℝ, 0 < y → y < 1 / 10 ^ 7 →
      (-(1 / 10 ^ 7) < -Real.sin y ∧ -Real.sin y < 0) ∧
      (-1 ≤ -Real.cos y ∧ -Real.cos y ≤ -(1 - 1 / 10 ^ 14)) := by
    intro y hy0 hy1
    have hpi := Real.pi_gt_three
    have hy2 : y ^ 2 ≤ (1 / 10 ^ 7) ^ 2 := pow_le_pow_left₀ hy0.le hy1.le 2
    have hsin := Real.sin_lt hy0
    have hcos := Real.one_sub_sq_div_two_le_cos (x := y)
    have hcos1 := Real.cos_le_one y
    have hsin0 : 0 < Real.sin y := Real.sin_pos_of_pos_of_lt_pi hy0 (by
      norm_num at hy1
      linarith)
    refine ⟨⟨?_, ?_⟩, ⟨?_, ?_⟩⟩
    · linarith
    · linarith
    · linarith
    · norm_num at hy2 ⊢
      linarith
  have hlo := Real.pi_gt_d20
  have hhi := Real.pi_lt_d20
  have hp : (180 : ℝ) * (PI ℝ / 180) = (13176795 / 4194304 - Real.pi) + Real.pi := by
    unfold PI
    ring
  have hy0 : 0 < 13176795 / 4194304 - Real.pi := by norm_num at hhi ⊢; linarith
  have hy1 : 13176795 / 4194304 - Real.pi < 1 / 10 ^ 7 := by
    norm_num at hlo ⊢; linarith
  rw [hp, Real.sin_add_pi, Real.cos_add_pi]
  exact key _ hy0 hy1

/-- The car after 20 ticks of `dt = 0.1` of straight acceleration from the
default state, with the true sine and cosine: 11.06 units along the heading
180. -/
theorem pure_accel_car_real :
    (ticks ⟨Real.sin, Real.cos, Real.tan⟩ (fun _ => 1 / 10) 20 (accelWorld ℝ)).car =
      { x := 1106 / 100 * Real.sin (180 * (PI ℝ / 180)), y := 25 / 100,
        z := 6 + 1106 / 100 * Real.cos (180 * (PI ℝ / 180)),
        heading := 180, speed := 8, wheelAngle := 0 } := by
  obtain ⟨⟨hs0, hs1⟩, ⟨hc1, hc0⟩⟩ := real_trig_at_heading_180
  have h := accel_saturated_closed_form (⟨Real.sin, Real.cos, Real.tan⟩ : Libm ℝ)
    (accelWorld ℝ)
    (abs_le.mpr ⟨by show -(1 / 2 : ℝ) ≤ Real.sin _; norm_num at hs0 ⊢; linarith,
      by show Real.sin _ ≤ (1 / 2 : ℝ); linarith⟩)
    hc1 (by show Real.cos _ ≤ (0 : ℝ); norm_num at hc0 ⊢; linarith) rfl rfl rfl rfl 6 le_rfl
  have e : (546 : ℝ) / 100 + 8 / 10 * (((6 : Nat) : ℝ) + 1) = 1106 / 100 := by norm_num
  rw [e] at h
  exact h

/-- C11 (counterexample): from the default state with only the accelerator
held, after 20 ticks of `dt = 0.1` the final `z` is below `-5`: it is more
than 4 units away from `-0.667`.  And `x` is not unchanged: it has become
negative, the heading 180 in radians being `PI`, slightly more than `π`. -/
theorem pure_accel_final_z_not_near :
    (ticks ⟨Real.sin, Real.cos, Real.tan⟩ (fun _ => 1 / 10) 20 (accelWorld ℝ)).car.z < -5 ∧
    4 < |(ticks ⟨Real.sin, Real.cos, Real.tan⟩ (fun _ => 1 / 10) 20 (accelWorld ℝ)).car.z
          - (-(667 / 1000))| ∧
    (ticks ⟨Real.sin, Real.cos, Real.tan⟩ (fun _ => 1 / 10) 20 (accelWorld ℝ)).car.x
      < (accelWorld ℝ).car.x := by
  obtain ⟨⟨-, hs1⟩, ⟨hc1, hc0⟩⟩ := real_trig_at_heading_180
  rw [pure_accel_car_real]
  have hz : 6 + 1106 / 100 * Real.cos (180 * (PI ℝ / 180)) < -5 := by
    norm_num at hc0 ⊢
    linarith
  refine ⟨hz, ?_, ?_⟩
  · rw [abs_of_neg (by linarith)]
    linarith
  · show 1106 / 100 * Real.sin (180 * (PI ℝ / 180)) < 0
    linarith

/-- C11 (as amended): starting from the default car state (x 0, z 6, heading
180, speed 0, wheelAngle 0) with only the accelerator held, after 20 ticks
of `dt = 0.1` the speed is 8, the heading is still 180, `x` is unchanged to
within `1e-5` (motion almost entirely in `-z`), and the final `z` is
approximately `-5.06`, to within `0.001` (the car has covered
`0.1 * (0.6 * (1 + ... + 13) + 8 * 7) = 11.06` units). -/
theorem pure_accel_scenario :
    (ticks ⟨Real.sin, Real.cos, Real.tan⟩ (fun _ => 1 / 10) 20 (accelWorld ℝ)).car.speed = 8 ∧
    (ticks ⟨Real.sin, Real.cos, Real.tan⟩ (fun _ => 1 / 10) 20 (accelWorld ℝ)).car.heading
      = 180 ∧
    |(ticks ⟨Real.sin, Real.cos, Real.tan⟩ (fun _ => 1 / 10) 20 (accelWorld ℝ)).car.x
      - (accelWorld ℝ).car.x| < 1 / 10 ^ 5 ∧
    |(ticks ⟨Real.sin, Real.cos, Real.tan⟩ (fun _ => 1 / 10) 20 (accelWorld ℝ)).car.z
      - (-(506 / 100))| < 1 / 1000 := by
  obtain ⟨⟨hs0, hs1⟩, ⟨hc1, hc0⟩⟩ := real_trig_at_heading_180
  rw [pure_accel_car_real]
  have hx0 : (accelWorld ℝ).car.x = 0 := rfl
  refine ⟨rfl, rfl, ?_, ?_⟩
  · rw [hx0]
    show |1106 / 100 * Real.sin (180 * (PI ℝ / 180)) - 0| < 1 / 10 ^ 5
    rw [abs_lt]
    norm_num at hs0 ⊢
    constructor <;> linarith
  · show |6 + 1106 / 100 * Real.cos (180 * (PI ℝ / 180)) - -(506 / 100)| < 1 / 1000
    rw [abs_lt]
    norm_num at hc0 ⊢
    constructor <;> linarith

end Projeto
